import Mathlib

/-!
Verification of the ml_service serving-coordination layer.

Shallow embedding of the Python sources of `src/ml_service/` into Lean:

* `priority_scheduler.py` — the priority queue ordering (`PriorityScheduler`).
* `dataset_manager.py`    — reference-data mixing (`ReferenceDatasetManager`).
* `drift_monitor.py`      — PSI / Jensen-Shannon drift reports (`DriftMonitor`).
* `monitoring/store.py`   — request-row updates (`MonitoringStore.update_request`).
* `repository.py`         — dataset persistence and model activation (`MlRepository`).

Python floats are modelled as exact rationals (`ℚ`); transcendental functions
(`np.log`, `np.sqrt` inside scipy's Jensen-Shannon) are taken as parameters of
the embedding, constrained only by the algebraic facts a claim needs.
Side-effecting code (sqlite, parquet files) is modelled as explicit state
passing; a Python exception becomes `Except`.
-/

/-! ### Priority scheduler (`priority_scheduler.py`)

`PriorityScheduler.submit` assigns a monotonically increasing counter under a
lock and enqueues `(-priority, count, func, args, kwargs, future)` into a
`queue.PriorityQueue`; workers repeatedly pop the smallest tuple
(lexicographic order; the counter makes ties impossible before `func` is ever
compared).  We model a batch of tasks already in the queue and the order in
which a worker pool drains it: popping minima repeatedly yields the list
sorted by the key `(-priority, count)`. -/

structure QueueEntry where
  negPriority : ℚ
  seq : ℕ
deriving DecidableEq, Repr

/-- Lexicographic comparison of `(-priority, count)`, exactly Python's tuple
order as used by `queue.PriorityQueue`. -/
def entryLe (a b : QueueEntry) : Prop :=
  a.negPriority < b.negPriority ∨ (a.negPriority = b.negPriority ∧ a.seq ≤ b.seq)

/-- Strict version of `entryLe`. -/
def entryLt (a b : QueueEntry) : Prop :=
  a.negPriority < b.negPriority ∨ (a.negPriority = b.negPriority ∧ a.seq < b.seq)

instance : DecidableRel entryLe := fun a b =>
  inferInstanceAs (Decidable (a.negPriority < b.negPriority ∨
    (a.negPriority = b.negPriority ∧ a.seq ≤ b.seq)))

instance : DecidableRel entryLt := fun a b =>
  inferInstanceAs (Decidable (a.negPriority < b.negPriority ∨
    (a.negPriority = b.negPriority ∧ a.seq < b.seq)))

instance : IsTotal QueueEntry entryLe where
  total a b := by
    rcases lt_trichotomy a.negPriority b.negPriority with h | h | h
    · exact Or.inl (Or.inl h)
    · rcases Nat.le_total a.seq b.seq with hs | hs
      · exact Or.inl (Or.inr ⟨h, hs⟩)
      · exact Or.inr (Or.inr ⟨h.symm, hs⟩)
    · exact Or.inr (Or.inl h)

instance : IsTrans QueueEntry entryLe where
  trans a b c hab hbc := by
    rcases hab with h1 | ⟨h1, h1s⟩
    · rcases hbc with h2 | ⟨h2, _⟩
      · exact Or.inl (h1.trans h2)
      · exact Or.inl (h2 ▸ h1)
    · rcases hbc with h2 | ⟨h2, h2s⟩
      · exact Or.inl (h1 ▸ h2)
      · exact Or.inr ⟨h1.trans h2, h1s.trans h2s⟩

/-- The queue contents after `submit` has been called once per priority in
`ps`, in that order: `submit` stores `(-priority, count)` where `count` is the
submission index (`PriorityScheduler.submit`, `priority_scheduler.py`). -/
def submittedEntries (ps : List ℚ) : List QueueEntry :=
  ps.enum.map fun x => ⟨-x.2, x.1⟩

/-- The order (as a list of submission indices) in which the worker loop
(`PriorityScheduler._worker`) executes the queued tasks: repeatedly popping
the least `(-priority, count)` tuple drains the queue in sorted order. -/
def executionOrder (ps : List ℚ) : List ℕ :=
  (List.insertionSort entryLe (submittedEntries ps)).map QueueEntry.seq

lemma entryLt_irrefl (a : QueueEntry) : ¬ entryLt a a := by
  rintro (h | ⟨-, h⟩)
  · exact lt_irrefl _ h
  · exact Nat.lt_irrefl _ h

lemma entryLt_of_le_of_lt_false {a b : QueueEntry}
    (hab : entryLt a b) (hba : entryLe b a) : False := by
  rcases hab with h1 | ⟨h1, h1s⟩
  · rcases hba with h2 | ⟨h2, _⟩
    · exact absurd (h1.trans h2) (lt_irrefl _)
    · exact absurd (h2 ▸ h1) (lt_irrefl _)
  · rcases hba with h2 | ⟨h2, h2s⟩
    · exact absurd (h1 ▸ h2) (lt_irrefl _)
    · exact absurd (Nat.lt_of_lt_of_le h1s h2s) (Nat.lt_irrefl _)

/-- In a list sorted by `entryLe` whose `seq` fields are pairwise distinct,
a strictly smaller entry sits at a strictly smaller position. -/
lemma indexOf_lt_of_sorted :
    ∀ (l : List QueueEntry), l.Sorted entryLe →
      (l.map QueueEntry.seq).Nodup →
      ∀ a b : QueueEntry, a ∈ l → b ∈ l → entryLt a b →
      (l.map QueueEntry.seq).indexOf a.seq < (l.map QueueEntry.seq).indexOf b.seq := by
  intro l
  induction l with
  | nil => intro _ _ a b ha; cases ha
  | cons x t ih =>
    intro hs hn a b ha hb hab
    have hxT : ∀ c ∈ t, entryLe x c := List.rel_of_sorted_cons hs
    have hn' : x.seq ∉ t.map QueueEntry.seq ∧ (t.map QueueEntry.seq).Nodup :=
      List.nodup_cons.1 (by simpa using hn)
    have hnx : x.seq ∉ t.map QueueEntry.seq := hn'.1
    have hnt : (t.map QueueEntry.seq).Nodup := hn'.2
    rcases List.mem_cons.1 ha with rfl | haT
    · -- a is the head: its index is 0, and b (≠ a) lies strictly later.
      have hbT : b ∈ t := by
        rcases List.mem_cons.1 hb with rfl | hbT
        · exact absurd hab (entryLt_irrefl _)
        · exact hbT
      have hbne : b.seq ≠ a.seq := by
        intro hEq
        exact hnx (hEq ▸ List.mem_map_of_mem QueueEntry.seq hbT)
      have h0 : (List.map QueueEntry.seq (a :: t)).indexOf a.seq = 0 := by
        simp [List.indexOf_cons_self]
      have h1 : (List.map QueueEntry.seq (a :: t)).indexOf b.seq =
          (t.map QueueEntry.seq).indexOf b.seq + 1 := by
        simp only [List.map_cons]
        exact List.indexOf_cons_ne _ (fun h => hbne h.symm)
      rw [h0, h1]
      exact Nat.succ_pos _
    · rcases List.mem_cons.1 hb with rfl | hbT
      · exact absurd (hxT a haT) (fun h => entryLt_of_le_of_lt_false hab h)
      · have hane : a.seq ≠ x.seq := by
          intro hEq
          exact hnx (hEq ▸ List.mem_map_of_mem QueueEntry.seq haT)
        have hbne : b.seq ≠ x.seq := by
          intro hEq
          exact hnx (hEq ▸ List.mem_map_of_mem QueueEntry.seq hbT)
        have ha1 : (List.map QueueEntry.seq (x :: t)).indexOf a.seq =
            (t.map QueueEntry.seq).indexOf a.seq + 1 := by
          simp only [List.map_cons]
          exact List.indexOf_cons_ne _ (fun h => hane h.symm)
        have hb1 : (List.map QueueEntry.seq (x :: t)).indexOf b.seq =
            (t.map QueueEntry.seq).indexOf b.seq + 1 := by
          simp only [List.map_cons]
          exact List.indexOf_cons_ne _ (fun h => hbne h.symm)
        rw [ha1, hb1]
        exact Nat.succ_lt_succ (ih hs.of_cons hnt a b haT hbT hab)

lemma submittedEntries_get (ps : List ℚ) (i : ℕ) (hi : i < ps.length) :
    (submittedEntries ps).get ⟨i, by simpa [submittedEntries] using hi⟩ =
      ⟨-ps[i], i⟩ := by
  simp [submittedEntries]

lemma mem_submittedEntries (ps : List ℚ) (i : ℕ) (hi : i < ps.length) :
    (⟨-ps[i], i⟩ : QueueEntry) ∈ submittedEntries ps := by
  have := submittedEntries_get ps i hi
  exact this ▸ List.get_mem _ _ _

lemma seq_nodup_sorted (ps : List ℚ) :
    ((List.insertionSort entryLe (submittedEntries ps)).map QueueEntry.seq).Nodup := by
  have hperm : List.Perm (List.insertionSort entryLe (submittedEntries ps)) (submittedEntries ps) :=
    List.perm_insertionSort entryLe (submittedEntries ps)
  have hmap := hperm.map QueueEntry.seq
  apply hmap.nodup_iff.2
  have : (submittedEntries ps).map QueueEntry.seq = List.range ps.length := by
    simp only [submittedEntries, List.map_map]
    have : (QueueEntry.seq ∘ fun x : ℕ × ℚ => (⟨-x.2, x.1⟩ : QueueEntry)) = Prod.fst := by
      funext x; rfl
    rw [this, List.enum_map_fst]
  rw [this]
  exact List.nodup_range _

/-- C2.  The scheduler dequeues tasks in the order of the key
`(-priority, submission sequence number)`: a task with strictly higher
priority value executes before one with lower priority, among equal
priorities the earlier-submitted task executes first, and a 1-worker
scheduler fed priorities `[1, 5, 1]` executes the second task, then the
first, then the third (indices `[1, 0, 2]`). -/
theorem scheduler_priority_order (ps : List ℚ) (i j : ℕ)
    (hi : i < ps.length) (hj : j < ps.length)
    (h : ps[j] < ps[i] ∨ (ps[i] = ps[j] ∧ i < j)) :
    (executionOrder ps).indexOf i < (executionOrder ps).indexOf j ∧
      executionOrder [1, 5, 1] = [1, 0, 2] := by
  constructor
  · have hs : (List.insertionSort entryLe (submittedEntries ps)).Sorted entryLe :=
      List.sorted_insertionSort entryLe (submittedEntries ps)
    have hn := seq_nodup_sorted ps
    have hai : (⟨-ps[i], i⟩ : QueueEntry) ∈
        List.insertionSort entryLe (submittedEntries ps) :=
      ((List.perm_insertionSort entryLe (submittedEntries ps)).mem_iff).2
        (mem_submittedEntries ps i hi)
    have haj : (⟨-ps[j], j⟩ : QueueEntry) ∈
        List.insertionSort entryLe (submittedEntries ps) :=
      ((List.perm_insertionSort entryLe (submittedEntries ps)).mem_iff).2
        (mem_submittedEntries ps j hj)
    have hlt : entryLt ⟨-ps[i], i⟩ ⟨-ps[j], j⟩ := by
      rcases h with h | ⟨h, hij⟩
      · exact Or.inl (by simpa using neg_lt_neg h)
      · exact Or.inr ⟨by rw [h], hij⟩
    have := indexOf_lt_of_sorted
      (List.insertionSort entryLe (submittedEntries ps)) hs hn
      ⟨-ps[i], i⟩ ⟨-ps[j], j⟩ hai haj hlt
    simpa [executionOrder] using this
  · decide

theorem scheduler_priority_order_witness :
    (executionOrder [1, 5, 1]).indexOf 1 < (executionOrder [1, 5, 1]).indexOf 0 ∧
      executionOrder [1, 5, 1] = [1, 0, 2] :=
  scheduler_priority_order [1, 5, 1] 1 0 (by decide) (by decide) (Or.inl (by decide))

/-! ### Reference dataset manager (`dataset_manager.py`)

`ReferenceDatasetManager.mix_for_training` concatenates the stored reference
frame with the client frame, oversamples the reference when its share is
below `min_reference_ratio`, and shuffles the result with
`np.random.default_rng(seed=42)`.  Data-frame rows are modelled as an
arbitrary type `α`; the parquet file at `self.path` is an
`Option (List α)` (`none` = file absent).  numpy's seeded generator is a
parameter `permOf` with `permOf seed n` the order `rng.shuffle` gives to
`np.arange(n)`; run-specific ambient state is an unused `entropy` argument,
unused precisely because the code reseeds with the literal 42 each call. -/

/-- The report returned by `mix_for_training` (`MixingReport` dataclass). -/
structure MixingReport where
  total_rows : ℕ
  reference_rows : ℕ
  client_rows : ℕ
  reference_ratio : ℚ
  oversampled : Bool
deriving DecidableEq, Repr

/-- Python's banker's rounding of an exact rational to an integer. -/
def roundHalfEven (x : ℚ) : ℤ :=
  if x - ⌊x⌋ = 1/2 then (if ⌊x⌋ % 2 = 0 then ⌊x⌋ else ⌊x⌋ + 1) else round x

/-- `round(x, 4)` as used on `current_ratio` in `mix_for_training`. -/
def pyRound4 (x : ℚ) : ℚ := (roundHalfEven (x * 10000) : ℚ) / 10000

/-- `frame.iloc[indices]`: reorder rows by a list of positions. -/
def applyPerm {α : Type} (idxs : List ℕ) (l : List α) : List α :=
  idxs.filterMap fun i => l[i]?

/-- `ReferenceDatasetManager._shuffle_frame`: an empty frame is returned as
is, otherwise the rows are reordered by shuffling `np.arange(len(frame))`
with `np.random.default_rng(seed=42)`. -/
def shuffleFrame {α : Type} (permOf : ℕ → ℕ → List ℕ) (_entropy : ℕ)
    (frame : List α) : List α :=
  if frame.isEmpty then frame
  else applyPerm (permOf 42 frame.length) frame

/-- `ReferenceDatasetManager.mix_for_training`.  The `some []` case models an
existing but empty parquet file: the code unlinks it and recurses, and the
recursive call takes the no-reference branch. -/
def mixForTraining {α : Type} (permOf : ℕ → ℕ → List ℕ) (entropy : ℕ)
    (min_reference_ratio : ℚ) (referenceStore : Option (List α))
    (client_items : List α) : List α × MixingReport :=
  let client_frame := client_items
  match referenceStore with
  | none =>
      (shuffleFrame permOf entropy client_frame,
       ⟨client_frame.length, 0, client_frame.length, 0, false⟩)
  | some reference_frame =>
      if reference_frame.isEmpty then
        (shuffleFrame permOf entropy client_frame,
         ⟨client_frame.length, 0, client_frame.length, 0, false⟩)
      else
        let total_rows := reference_frame.length + client_frame.length
        let current_ratio := (reference_frame.length : ℚ) / ((max total_rows 1 : ℕ) : ℚ)
        let mixed := reference_frame ++ client_frame
        if current_ratio < min_reference_ratio ∧ 0 < reference_frame.length then
          let needed_reference : ℤ :=
            ⌈min_reference_ratio * (mixed.length : ℚ)⌉ - (reference_frame.length : ℤ)
          let reps : ℕ :=
            max 1 (⌈(needed_reference : ℚ) / (reference_frame.length : ℚ)⌉.toNat)
          let reference_augmented := (List.replicate reps reference_frame).flatten
          let mixed2 := reference_augmented ++ client_frame
          let ratio2 := (reference_augmented.length : ℚ) / (mixed2.length : ℚ)
          (shuffleFrame permOf entropy mixed2,
           ⟨mixed2.length, reference_frame.length, client_frame.length,
            pyRound4 ratio2, true⟩)
        else
          (shuffleFrame permOf entropy mixed,
           ⟨mixed.length, reference_frame.length, client_frame.length,
            pyRound4 current_ratio, false⟩)

lemma filterMap_getElem?_range {α : Type} :
    ∀ l : List α, (List.range l.length).filterMap (fun i => l[i]?) = l := by
  intro l
  induction l with
  | nil => rfl
  | cons a t ih =>
    have hr : List.range (t.length + 1) = 0 :: (List.range t.length).map Nat.succ :=
      List.range_succ_eq_map t.length
    rw [List.length_cons, hr, List.filterMap_cons, List.filterMap_map]
    have hcomp : ((fun i => (a :: t)[i]?) ∘ Nat.succ) = fun i : ℕ => t[i]? := by
      funext i; simp
    rw [hcomp, ih]
    simp

lemma applyPerm_range {α : Type} (l : List α) : applyPerm (List.range l.length) l = l :=
  filterMap_getElem?_range l

lemma applyPerm_perm {α : Type} (idxs : List ℕ) (l : List α)
    (h : idxs.Perm (List.range l.length)) : (applyPerm idxs l).Perm l := by
  have h2 := h.filterMap fun i => l[i]?
  rw [filterMap_getElem?_range l] at h2
  exact h2

lemma shuffleFrame_perm {α : Type} (permOf : ℕ → ℕ → List ℕ) (entropy : ℕ)
    (frame : List α) (hperm : ∀ n, (permOf 42 n).Perm (List.range n)) :
    (shuffleFrame permOf entropy frame).Perm frame := by
  unfold shuffleFrame
  by_cases h : frame.isEmpty
  · simp [h]
  · simp only [h, if_false, Bool.false_eq_true]
    exact applyPerm_perm _ _ (hperm frame.length)

/-- C8.  With no reference store, `mix_for_training` returns the client rows
(as a set: only the fixed-seed shuffle reorders them) and the report
`total_rows = client_rows = |client|`, `reference_rows = 0`,
`reference_ratio = 0`, `oversampled = false`. -/
theorem mix_no_reference {α : Type} (permOf : ℕ → ℕ → List ℕ) (entropy : ℕ)
    (m : ℚ) (client : List α)
    (hperm : ∀ n, (permOf 42 n).Perm (List.range n)) :
    (mixForTraining permOf entropy m none client).1.Perm client ∧
      (mixForTraining permOf entropy m none client).2 =
        ⟨client.length, 0, client.length, 0, false⟩ :=
  ⟨shuffleFrame_perm permOf entropy client hperm, rfl⟩

theorem mix_no_reference_witness :
    ((mixForTraining (fun _ n => List.range n) 0 (1/10) none [7, 8]).1.Perm [7, 8] ∧
      (mixForTraining (fun _ n => List.range n) 0 (1/10) none [7, 8]).2 =
        ⟨2, 0, 2, 0, false⟩) :=
  mix_no_reference (fun _ n => List.range n) 0 (1/10) [7, 8]
    (fun _ => List.Perm.refl _)

/-- C9.  The final shuffle reseeds `np.random.default_rng(seed=42)` inside
every call, so mixing is a function of the store contents and the client
items alone: two runs that differ in ambient entropy produce identical
mixed tables and identical reports. -/
theorem mix_deterministic {α : Type} (permOf : ℕ → ℕ → List ℕ) (e1 e2 : ℕ)
    (m : ℚ) (ref : Option (List α)) (client : List α) :
    mixForTraining permOf e1 m ref client = mixForTraining permOf e2 m ref client := by
  cases ref <;> rfl

/-- C3 (code bug).  The spec says oversampling restores
`reference_ratio >= min_reference_ratio`; the code computes the needed rows
against the pre-tiling total and tiles `ceil(needed/|ref|)` copies in place
of (not in addition to) the reference, so the minimum is not reached.  With
one reference row, ten client rows and the default minimum 1/10 the mix is
left unchanged (`reps = 1`) and the report carries
`reference_ratio = 909/10000 < 1/10` together with `oversampled = true`. -/
theorem mix_oversampling_misses_minimum :
    (mixForTraining (fun _ n => List.range n) 0 (1/10) (some [0])
        [1, 2, 3, 4, 5, 6, 7, 8, 9, 10]).2 =
      ⟨11, 1, 10, 909/10000, true⟩ ∧ (909/10000 : ℚ) < 1/10 := by
  have hpy : pyRound4 ((1 : ℚ)/11) = 909/10000 := by
    have hmul : ((1 : ℚ) / 11) * 10000 = 10000 / 11 := by ring
    have hfl : ⌊(10000/11 : ℚ)⌋ = 909 := by rw [Int.floor_eq_iff]; norm_num
    have hfl2 : ⌊(20011/22 : ℚ)⌋ = 909 := by rw [Int.floor_eq_iff]; norm_num
    unfold pyRound4 roundHalfEven
    rw [hmul, hfl]
    rw [if_neg (by norm_num)]
    rw [round_eq, show ((10000:ℚ)/11 + 1/2) = 20011/22 by ring, hfl2]
    norm_num
  have hc1 : ⌈(11/10 : ℚ)⌉ = 2 := by rw [Int.ceil_eq_iff]; norm_num
  constructor
  · simp only [mixForTraining, List.isEmpty_cons, Bool.false_eq_true, if_false]
    norm_num [hc1, hpy, Int.ceil_one, List.replicate_one]
  · norm_num

/-! ### Drift monitor (`drift_monitor.py`, features from `feature_store.py`)

The baseline parquet file and its `.meta.json` sidecar become two `Option`
fields of a `DriftState`; `FileNotFoundError` becomes `Except.error`.
`np.log` and `np.sqrt` (the latter inside scipy's `jensenshannon`) are
parameters `log` and `sqrt` of the embedding; the float constants `1e-9` and
`1e-6` are modelled as the exact rationals they normalise. -/

/-- `schemas.NomenclatureItem` (the fields `FeatureBuilder` consumes are
`name` plus the optional descriptive fields; `None` models pandas NaN). -/
structure Item where
  name : String
  full_name : Option String
  kind : Option String
  unit : Option String
  type_hint : Option String
  okved_code : Option String
  hs_code : Option String
  country_code : Option String
  jurisdiction : Option String
  location_hint : Option String
  encoding_hint : Option String
  label : Option String
deriving DecidableEq, Repr

/-- One row of the data frame produced by `FeatureBuilder.build`. -/
structure FeatureRow where
  name : String
  full_name : String
  kind : String
  unit : String
  type_hint : String
  okved_code : String
  hs_code : String
  text_joined : String
  token_count : ℕ
  name_len : ℕ
  full_name_len : ℕ
  contains_service_kw : Bool
  contains_goods_kw : Bool
deriving DecidableEq, Repr

/-- Python `str.strip()`: drop leading and trailing whitespace. -/
def pyStrip (s : String) : String :=
  String.mk (((s.toList.dropWhile Char.isWhitespace).reverse.dropWhile
    Char.isWhitespace).reverse)

/-- Python `str.split()` with no argument: split on whitespace runs,
dropping empty pieces. -/
def pySplit (s : String) : List String :=
  (s.split Char.isWhitespace).filter (fun w => w ≠ "")

/-- Substring test, modelling the alternation-only regexes
`"услуг|service"` and `"товар|product|item"` of `FeatureBuilder.build`. -/
def containsSub (s pat : String) : Bool := (s.splitOn pat).length != 1

/-- One row of `FeatureBuilder.build`: `fillna` defaults, lowercasing, the
joined text and its derived counts (`feature_store.py`). -/
def buildFeatureRow (it : Item) : FeatureRow :=
  let name := it.name.toLower
  let full_name := (it.full_name.getD "").toLower
  let kind := (it.kind.getD "unknown").toLower
  let unit := (it.unit.getD "unit_na").toLower
  let type_hint := (it.type_hint.getD "unassigned").toLower
  let okved_code := it.okved_code.getD "0000"
  let hs_code := it.hs_code.getD "0000"
  let text_joined := pyStrip (name ++ " " ++ full_name)
  { name := name, full_name := full_name, kind := kind, unit := unit,
    type_hint := type_hint, okved_code := okved_code, hs_code := hs_code,
    text_joined := text_joined,
    token_count := (pySplit text_joined).length,
    name_len := name.length, full_name_len := full_name.length,
    contains_service_kw := containsSub text_joined "услуг" || containsSub text_joined "service",
    contains_goods_kw := containsSub text_joined "товар" || containsSub text_joined "product" ||
      containsSub text_joined "item" }

/-- `FeatureBuilder.build` (an empty item list yields the empty frame). -/
def buildFeatures (items : List Item) : List FeatureRow :=
  items.map buildFeatureRow

/-- `drift_monitor.BaselineMeta`. -/
structure BaselineMeta where
  version : String
  row_count : ℕ
deriving DecidableEq, Repr

/-- The two files a `DriftMonitor` works with: the baseline parquet table at
`baseline_path` and the json metadata at `meta_path` (`none` = absent). -/
structure DriftState where
  baselineFile : Option (List FeatureRow)
  metaFile : Option BaselineMeta
deriving Repr

inductive DriftError where
  | baselineMissing
deriving DecidableEq, Repr

/-- `DriftMonitor._ensure_baseline`: raise if the table file is missing
(the metadata file is not consulted), else load it. -/
def ensureBaseline (st : DriftState) : Except DriftError (List FeatureRow) :=
  match st.baselineFile with
  | none => .error .baselineMissing
  | some t => .ok t

/-- `DriftMonitor.update_baseline`: write the built features and the
metadata record. -/
def updateBaseline (st : DriftState) (items : List Item) (version : String) :
    DriftState × BaselineMeta :=
  let features := buildFeatures items
  let meta : BaselineMeta := ⟨version, features.length⟩
  ({ st with baselineFile := some features, metaFile := some meta }, meta)

/-- `DriftMonitor.has_baseline`: both files must exist. -/
def hasBaseline (st : DriftState) : Bool :=
  st.baselineFile.isSome && st.metaFile.isSome

/-- Order-preserving deduplication, keeping first occurrences
(pandas `drop_duplicates`). -/
def dedupKeepFirstAux {α : Type} [DecidableEq α] (seen : List α) : List α → List α
  | [] => []
  | a :: t =>
      if a ∈ seen then dedupKeepFirstAux seen t
      else a :: dedupKeepFirstAux (a :: seen) t

def dedupKeepFirst {α : Type} [DecidableEq α] (l : List α) : List α :=
  dedupKeepFirstAux [] l

/-- `pd.Series.quantile` with the default linear interpolation, on exact
rationals.  The empty series yields 0 here (pandas yields NaN; every claim
we settle stays away from that case or never reaches the value). -/
def quantile (data : List ℚ) (q : ℚ) : ℚ :=
  let xs := List.insertionSort (fun a b : ℚ => a ≤ b) data
  let pos := q * ((xs.length : ℚ) - 1)
  let lo := ⌊pos⌋.toNat
  let frac := pos - (⌊pos⌋ : ℚ)
  match xs[lo]?, xs[lo + 1]? with
  | some a, some b => a + frac * (b - a)
  | some a, none => a
  | none, _ => 0

def adjustLast : List ℚ → List ℚ
  | [] => []
  | [b] => [b + 1/1000000000]
  | b :: t => b :: adjustLast t

/-- `bins[0] -= 1e-9; bins[-1] += 1e-9` (only reached with ≥ 2 bins). -/
def adjustBins : List ℚ → List ℚ
  | [] => []
  | a :: t => (a - 1/1000000000) :: adjustLast t

/-- `np.histogram(data, bins)[0]`: counts per half-open interval, the last
interval closed. -/
def histogram (data : List ℚ) : List ℚ → List ℕ
  | b1 :: b2 :: rest =>
      (match rest with
       | [] => [data.countP (fun x => decide (b1 ≤ x ∧ x ≤ b2))]
       | _ :: _ =>
          data.countP (fun x => decide (b1 ≤ x ∧ x < b2)) :: histogram data (b2 :: rest))
  | _ => []

/-- `DriftMonitor._psi` with the default 10 buckets (never overridden):
decile edges from the expected series, histograms of both series against
those edges, probabilities clipped to `1e-6`, then
`Σ (p_e - p_a) * log(p_e / p_a)`. -/
def psi (log : ℚ → ℚ) (expected actual : List ℚ) : ℚ :=
  let quantiles := (List.range 11).map (fun i => (i : ℚ) / 10)
  let bins := dedupKeepFirst (quantiles.map (quantile expected))
  if bins.length ≤ 1 then 0
  else
    let bins2 := adjustBins bins
    let expected_counts :=
      ((histogram expected bins2).map (fun c => (c : ℚ) / (expected.length : ℚ))).map
        (fun x => max x (1/1000000))
    let actual_counts :=
      ((histogram actual bins2).map (fun c => (c : ℚ) / (actual.length : ℚ))).map
        (fun x => max x (1/1000000))
    ((expected_counts.zip actual_counts).map
      (fun p => (p.1 - p.2) * log (p.1 / p.2))).sum

/-- `scipy.special.rel_entr` summed over a pair of vectors: `x·log(x/y)`
where both entries are positive, `0` where `x = 0` (the `+∞` case `x > 0,
y = 0` cannot arise for the midpoint vectors this file applies it to and is
mapped to `0`). -/
def relEntrSum (log : ℚ → ℚ) (p q : List ℚ) : ℚ :=
  ((p.zip q).map
    (fun x => if 0 < x.1 ∧ 0 < x.2 then x.1 * log (x.1 / x.2) else 0)).sum

/-- `scipy.spatial.distance.jensenshannon`: normalise both vectors, take the
midpoint, and return the square root of half the summed relative entropies. -/
def jensenshannon (log sqrt : ℚ → ℚ) (p q : List ℚ) : ℚ :=
  let pn := p.map (fun x => x / p.sum)
  let qn := q.map (fun x => x / q.sum)
  let m := (pn.zip qn).map (fun x => (x.1 + x.2) / 2)
  sqrt ((relEntrSum log pn m + relEntrSum log qn m) / 2)

/-- `sorted(set(base).union(current))` from `DriftMonitor._categorical_js`. -/
def sortedUnion (base current : List String) : List String :=
  List.insertionSort (fun a b : String => a ≤ b) (dedupKeepFirst (base ++ current))

/-- `value_counts(normalize=True).reindex(union, fill_value=0)`. -/
def freqVec (series : List String) (union : List String) : List ℚ :=
  union.map (fun u => (series.count u : ℚ) / (series.length : ℚ))

/-- `DriftMonitor._categorical_js`. -/
def categoricalJS (log sqrt : ℚ → ℚ) (base current : List String) : ℚ :=
  let union := sortedUnion base current
  jensenshannon log sqrt (freqVec base union) (freqVec current union)

/-- `schemas.DriftReport` (without the `generated_at` timestamp). -/
structure DriftReport where
  feature_drift_scores : List (String × ℚ)
  population_stability_index : ℚ
  triggered : Bool
  baseline_version : Option String
deriving DecidableEq, Repr

/-- `.astype(float)` on a numeric feature column. -/
def numericColumn (rows : List FeatureRow) (f : FeatureRow → ℕ) : List ℚ :=
  rows.map (fun r => (f r : ℚ))

/-- `DriftMonitor.build_report`: PSI per numeric feature, Jensen-Shannon per
categorical feature, `psi_mean` over the three numeric scores (the dict is
always non-empty), trigger rule `psi_mean > 0.2 or any js > 0.3`. -/
def buildReport (log sqrt : ℚ → ℚ) (st : DriftState) (items : List Item) :
    Except DriftError DriftReport :=
  match ensureBaseline st with
  | .error e => .error e
  | .ok baseline =>
    let current := buildFeatures items
    let numeric_scores : List (String × ℚ) :=
      [("token_count", psi log (numericColumn baseline FeatureRow.token_count)
          (numericColumn current FeatureRow.token_count)),
       ("name_len", psi log (numericColumn baseline FeatureRow.name_len)
          (numericColumn current FeatureRow.name_len)),
       ("full_name_len", psi log (numericColumn baseline FeatureRow.full_name_len)
          (numericColumn current FeatureRow.full_name_len))]
    let categorical_scores : List (String × ℚ) :=
      [("kind", categoricalJS log sqrt (baseline.map FeatureRow.kind)
          (current.map FeatureRow.kind)),
       ("unit", categoricalJS log sqrt (baseline.map FeatureRow.unit)
          (current.map FeatureRow.unit)),
       ("type_hint", categoricalJS log sqrt (baseline.map FeatureRow.type_hint)
          (current.map FeatureRow.type_hint))]
    let psi_mean := (numeric_scores.map Prod.snd).sum / 3
    let triggered := decide (psi_mean > 1/5) ||
      (categorical_scores.map Prod.snd).any (fun s => decide (s > 3/10))
    .ok ⟨numeric_scores ++ categorical_scores, psi_mean, triggered,
      st.metaFile.map BaselineMeta.version⟩

/-- C6.  `build_report` on a state whose baseline table file is absent fails
with the distinct missing-baseline error; it never returns a report. -/
theorem buildReport_requires_baseline (log sqrt : ℚ → ℚ) (st : DriftState)
    (items : List Item) (h : st.baselineFile = none) :
    buildReport log sqrt st items = .error .baselineMissing := by
  unfold buildReport ensureBaseline
  rw [h]

theorem buildReport_requires_baseline_witness :
    buildReport (fun _ => 0) (fun _ => 0) ⟨none, none⟩ [] =
      .error .baselineMissing :=
  buildReport_requires_baseline (fun _ => 0) (fun _ => 0) ⟨none, none⟩ [] rfl

lemma zip_self_sub_sum (l : List ℚ) (f : ℚ × ℚ → ℚ) :
    ((l.zip l).map (fun p => (p.1 - p.2) * f p)).sum = 0 := by
  induction l with
  | nil => rfl
  | cons a t ih => simp [ih]

/-- PSI of a series against itself vanishes: both histograms are taken over
the same bin edges and the same data, so every summand has factor `p - p`. -/
lemma psi_self (log : ℚ → ℚ) (c : List ℚ) : psi log c c = 0 := by
  simp only [psi]
  split
  · rfl
  · exact zip_self_sub_sum _ _

lemma map_zip_self_avg (l : List ℚ) :
    ((l.zip l).map fun x => (x.1 + x.2) / 2) = l := by
  induction l with
  | nil => rfl
  | cons a t ih =>
    simp only [List.zip_cons_cons, List.map_cons, ih, List.cons.injEq, and_true]
    ring

lemma relEntrSum_self (log : ℚ → ℚ) (hlog : log 1 = 0) (p : List ℚ) :
    relEntrSum log p p = 0 := by
  unfold relEntrSum
  induction p with
  | nil => rfl
  | cons a t ih =>
    simp only [List.zip_cons_cons, List.map_cons, List.sum_cons, ih, add_zero]
    by_cases h : (0:ℚ) < a
    · rw [if_pos ⟨h, h⟩, div_self (ne_of_gt h), hlog, mul_zero]
    · rw [if_neg (fun hc => h hc.1)]

lemma jensenshannon_self (log sqrt : ℚ → ℚ) (hlog : log 1 = 0)
    (hsqrt : sqrt 0 = 0) (v : List ℚ) : jensenshannon log sqrt v v = 0 := by
  simp only [jensenshannon]
  rw [map_zip_self_avg, relEntrSum_self log hlog]
  rw [show ((0:ℚ) + 0) / 2 = 0 by norm_num, hsqrt]

lemma categoricalJS_self (log sqrt : ℚ → ℚ) (hlog : log 1 = 0)
    (hsqrt : sqrt 0 = 0) (c : List String) : categoricalJS log sqrt c c = 0 := by
  simp only [categoricalJS]
  exact jensenshannon_self log sqrt hlog hsqrt _

/-- C7.  After `update_baseline(items, version)`, `has_baseline()` holds and
`build_report` on the very same items (self-comparison) succeeds with
`population_stability_index = 0` and `triggered = false`, carrying the
baseline version.  `log` and `sqrt` model `np.log` and `np.sqrt`; the only
facts used are `log 1 = 0` and `sqrt 0 = 0`. -/
theorem baseline_self_report (log sqrt : ℚ → ℚ) (hlog : log 1 = 0)
    (hsqrt : sqrt 0 = 0) (st : DriftState) (items : List Item)
    (version : String) (hne : items ≠ []) :
    hasBaseline (updateBaseline st items version).1 = true ∧
      ∃ r, buildReport log sqrt (updateBaseline st items version).1 items = .ok r ∧
        r.population_stability_index = 0 ∧ r.triggered = false ∧
        r.baseline_version = some version := by
  have hps : ∀ c, psi log c c = 0 := psi_self log
  have hjs : ∀ c, categoricalJS log sqrt c c = 0 :=
    categoricalJS_self log sqrt hlog hsqrt
  refine ⟨rfl, ⟨_, rfl, ?_, ?_, rfl⟩⟩
  · show ((List.map Prod.snd _).sum / 3 : ℚ) = 0
    simp only [List.map_cons, List.map_nil, List.sum_cons, List.sum_nil, hps]
    norm_num
  · show (decide _ || List.any _ _) = false
    simp only [List.map_cons, List.map_nil, List.sum_cons, List.sum_nil, hps, hjs,
      List.any_cons, List.any_nil, Bool.or_false, Bool.or_eq_false_iff,
      decide_eq_false_iff_not]
    norm_num

theorem baseline_self_report_witness :
    hasBaseline (updateBaseline ⟨none, none⟩
        [⟨"a", none, none, none, none, none, none, none, none, none, none, none⟩]
        "v1").1 = true ∧
      ∃ r, buildReport (fun _ => 0) (fun _ => 0)
          (updateBaseline ⟨none, none⟩
            [⟨"a", none, none, none, none, none, none, none, none, none, none, none⟩]
            "v1").1
          [⟨"a", none, none, none, none, none, none, none, none, none, none, none⟩] =
          .ok r ∧
        r.population_stability_index = 0 ∧ r.triggered = false ∧
        r.baseline_version = some "v1" :=
  baseline_self_report (fun _ => 0) (fun _ => 0) rfl rfl ⟨none, none⟩
    [⟨"a", none, none, none, none, none, none, none, none, none, none, none⟩]
    "v1" (List.cons_ne_nil _ _)

/-- C10 (implicit).  `has_baseline` demands both the table file and the
metadata file, while `build_report` only demands the table file: in the
state where the table exists and the metadata is absent, `has_baseline` is
false yet `build_report` succeeds, reporting `baseline_version = None`. -/
theorem buildReport_succeeds_without_meta (log sqrt : ℚ → ℚ)
    (table : List FeatureRow) (items : List Item) :
    hasBaseline ⟨some table, none⟩ = false ∧
      ∃ r, buildReport log sqrt ⟨some table, none⟩ items = .ok r ∧
        r.baseline_version = none :=
  ⟨rfl, ⟨_, rfl, rfl⟩⟩

/-! ### Monitoring store (`monitoring/store.py`)

`MonitoringStore.update_request` builds a `values` dict and applies it to
the request row matching the id in one UPDATE.  We model the effect on that
row; `now` stands for `datetime.utcnow()`. -/

/-- One row of the `requests` table (the columns `update_request` touches). -/
structure RequestRow where
  kind : String
  status : String
  priority : ℚ
  progress : ℚ
  detail : String
  error : Option String
  updated_at : ℕ
  completed_at : Option ℕ
deriving DecidableEq, Repr

/-- `MonitoringStore.update_request`.  Note the truthiness tests taken from
the Python: `if status:` skips the empty string, and in the terminal branch
`values["progress"] = progress or 100.0` keeps a supplied non-zero progress
and substitutes `100.0` only for `None` or `0.0`. -/
def updateRequest (now : ℕ) (status : Option String) (progress : Option ℚ)
    (detail : Option String) (error : Option String) (row : RequestRow) :
    RequestRow :=
  let r1 := { row with updated_at := now }
  let r2 := match status with
    | some s => if s ≠ "" then { r1 with status := s } else r1
    | none => r1
  let r3 := match progress with
    | some p => { r2 with progress := p }
    | none => r2
  let r4 := match detail with
    | some d => { r3 with detail := d }
    | none => r3
  let r5 := match error with
    | some e => { r4 with error := some e }
    | none => r4
  if status = some "completed" ∨ status = some "error" then
    { r5 with completed_at := some now,
              progress := match progress with
                          | some p => if p ≠ 0 then p else 100
                          | none => 100 }
  else r5

/-- C5 counterexample.  `update_request` with terminal status and a supplied
progress of 50 stores 50, not the force-set 100 the claim demands. -/
theorem update_request_counterexample :
    (updateRequest 5 (some "completed") (some 50) none none
        ⟨"train", "running", 1, 10, "", none, 0, none⟩).progress = 50 ∧
      (50 : ℚ) ≠ 100 := by
  constructor
  · rfl
  · norm_num

/-- C5 (amended).  On terminal status (`completed`/`error`) `update_request`
force-sets `completed_at`; `progress` becomes the supplied value when one is
given and non-zero, and `100` only when `progress` is absent or `0.0`. -/
theorem update_request_terminal (now : ℕ) (status : Option String)
    (progress : Option ℚ) (detail : Option String) (error : Option String)
    (row : RequestRow)
    (hterm : status = some "completed" ∨ status = some "error") :
    (updateRequest now status progress detail error row).completed_at = some now ∧
      (updateRequest now status progress detail error row).progress =
        (match progress with
         | some p => if p ≠ 0 then p else 100
         | none => 100) := by
  simp only [updateRequest]
  rw [if_pos hterm]
  exact ⟨rfl, rfl⟩

theorem update_request_terminal_witness :
    (updateRequest 3 (some "error") (some 50) none none
        ⟨"predict", "running", 1, 10, "", none, 0, none⟩).completed_at = some 3 ∧
      (updateRequest 3 (some "error") (some 50) none none
        ⟨"predict", "running", 1, 10, "", none, 0, none⟩).progress = 50 := by
  have h := update_request_terminal 3 (some "error") (some 50) none none
    ⟨"predict", "running", 1, 10, "", none, 0, none⟩ (Or.inr rfl)
  refine ⟨h.1, ?_⟩
  rw [h.2]
  norm_num

/-! ### Dataset / model repository (`repository.py`)

sqlite tables become lists of rows; `lastrowid` becomes explicit counters;
`CURRENT_TIMESTAMP` becomes a `now : ℕ` parameter.  The SHA-256 of the
canonical JSON payload is a parameter `hashFn`.  `MlRepository._connect` is
a context manager that only closes the connection, and `persist_dataset`
commits once at the very end, so an exception rolls every statement of the
call back: the error paths below return the caller's state unchanged. -/

/-- A row of the `models` table (the columns `activate_model` touches). -/
structure ModelRow where
  model_id : ℕ
  version : String
  model_key : String
  status : String
  activated_at : Option ℕ
deriving DecidableEq, Repr

/-- `MlRepository.activate_model`: first UPDATE archives every row of
`model_key`; the second UPDATE sets every row whose `version` matches to
`active` — it does not filter on `model_key`. -/
def activateModel (now : ℕ) (models : List ModelRow) (version model_key : String) :
    List ModelRow :=
  (models.map (fun r =>
      if r.model_key = model_key then { r with status := "archived" } else r)).map
    (fun r =>
      if r.version = version then
        { r with status := "active", activated_at := some now }
      else r)

/-- The number of rows of `key` with status `active`: the quantity the
"at most one active Model per model_key" invariant bounds. -/
def countActive (models : List ModelRow) (key : String) : ℕ :=
  models.countP (fun r => decide (r.model_key = key ∧ r.status = "active"))

/-- The per-row effect of the two sequential UPDATEs of `activate_model`. -/
def activateRow (now : ℕ) (version model_key : String) (r : ModelRow) : ModelRow :=
  let r1 := if r.model_key = model_key then { r with status := "archived" } else r
  if r1.version = version then
    { r1 with status := "active", activated_at := some now }
  else r1

lemma activateModel_eq_map (now : ℕ) (models : List ModelRow)
    (version model_key : String) :
    activateModel now models version model_key =
      models.map (activateRow now version model_key) := by
  unfold activateModel activateRow
  rw [List.map_map]
  rfl

lemma activateRow_model_key (now : ℕ) (version model_key : String) (r : ModelRow) :
    (activateRow now version model_key r).model_key = r.model_key := by
  by_cases hk : r.model_key = model_key <;> by_cases hv : r.version = version <;>
    simp [activateRow, hk, hv]

lemma activateRow_version (now : ℕ) (version model_key : String) (r : ModelRow) :
    (activateRow now version model_key r).version = r.version := by
  by_cases hk : r.model_key = model_key <;> by_cases hv : r.version = version <;>
    simp [activateRow, hk, hv]

lemma activateRow_of_other (now : ℕ) (version model_key : String) (r : ModelRow)
    (hk : r.model_key ≠ model_key) (hv : r.version ≠ version) :
    activateRow now version model_key r = r := by
  simp [activateRow, hk, hv]

lemma activateRow_status_of_key (now : ℕ) (version model_key : String)
    (r : ModelRow) (hk : r.model_key = model_key) :
    (activateRow now version model_key r).status =
      (if r.version = version then "active" else "archived") := by
  by_cases hv : r.version = version <;> simp [activateRow, hk, hv]

lemma activateRow_status_of_version (now : ℕ) (version model_key : String)
    (r : ModelRow) (hv : r.version = version) :
    (activateRow now version model_key r).status = "active" := by
  by_cases hk : r.model_key = model_key <;> simp [activateRow, hk, hv]

/-- C1 counterexample.  The second UPDATE of `activate_model` filters only
on `version`, not on `model_key`: activating version "v" for key "a" also
activates the key-"b" row sharing the version string, so a row of another
key changes and key "b" ends with two active rows although the per-key
invariant held beforehand. -/
theorem activate_model_counterexample :
    activateModel 0
        [⟨1, "v", "a", "draft", none⟩, ⟨2, "v", "b", "draft", none⟩,
         ⟨3, "w", "b", "active", none⟩] "v" "a" =
      [⟨1, "v", "a", "active", some 0⟩, ⟨2, "v", "b", "active", some 0⟩,
       ⟨3, "w", "b", "active", none⟩] ∧
    countActive [⟨1, "v", "a", "draft", none⟩, ⟨2, "v", "b", "draft", none⟩,
       ⟨3, "w", "b", "active", none⟩] "b" = 1 ∧
    countActive (activateModel 0
        [⟨1, "v", "a", "draft", none⟩, ⟨2, "v", "b", "draft", none⟩,
         ⟨3, "w", "b", "active", none⟩] "v" "a") "b" = 2 :=
  ⟨rfl, rfl, rfl⟩

/-- C1 (amended).  When version `V` occurs in exactly one Model row, that
row's key is `K`, and every key other than `K` satisfied the at-most-one-
active invariant beforehand, `activate_model(V, K)` leaves exactly one
active row for `K` (the `V` row), archives every other row of `K`, leaves
rows of other keys unchanged, and the invariant holds for every key. -/
theorem activate_model_unique_version (now : ℕ) (models : List ModelRow)
    (version model_key : String) (rv : ModelRow)
    (hv : models.filter (fun r => decide (r.version = version)) = [rv])
    (hkey : rv.model_key = model_key)
    (hinv : ∀ k, k ≠ model_key → countActive models k ≤ 1) :
    countActive (activateModel now models version model_key) model_key = 1 ∧
      (∀ r ∈ activateModel now models version model_key, r.model_key = model_key →
        r.status = (if r.version = version then "active" else "archived")) ∧
      (activateModel now models version model_key).filter
          (fun r => decide (¬ r.model_key = model_key)) =
        models.filter (fun r => decide (¬ r.model_key = model_key)) ∧
      ∀ k, countActive (activateModel now models version model_key) k ≤ 1 := by
  have hmemv : ∀ r ∈ models, r.version = version → r = rv := by
    intro r hr hrv
    have hmem : r ∈ models.filter (fun r => decide (r.version = version)) :=
      List.mem_filter.2 ⟨hr, by simp [hrv]⟩
    rw [hv] at hmem
    simpa using hmem
  have hcount1 :
      countActive (activateModel now models version model_key) model_key = 1 := by
    rw [activateModel_eq_map, countActive, List.countP_map]
    have hcongr : ∀ r ∈ models,
        (((fun r => decide (r.model_key = model_key ∧ r.status = "active")) ∘
          activateRow now version model_key) r = true ↔
        (fun r => decide (r.version = version)) r = true) := by
      intro r hr
      simp only [Function.comp_apply, decide_eq_true_eq]
      by_cases hc : r.version = version
      · constructor
        · intro _; exact hc
        · intro _
          refine ⟨?_, activateRow_status_of_version now version model_key r hc⟩
          rw [activateRow_model_key, hmemv r hr hc]
          exact hkey
      · constructor
        · rintro ⟨hk', hs⟩
          rw [activateRow_model_key] at hk'
          rw [activateRow_status_of_key now version model_key r hk', if_neg hc] at hs
          exact absurd hs (by decide)
        · intro hvv; exact absurd hvv hc
    rw [List.countP_congr hcongr, List.countP_eq_length_filter, hv]
    rfl
  refine ⟨hcount1, ?_, ?_, ?_⟩
  · intro r hr hk
    rw [activateModel_eq_map] at hr
    obtain ⟨r0, hr0, rfl⟩ := List.mem_map.1 hr
    rw [activateRow_model_key] at hk
    rw [activateRow_version]
    exact activateRow_status_of_key now version model_key r0 hk
  · rw [activateModel_eq_map, List.filter_map]
    have hp : ((fun r => decide (¬ r.model_key = model_key)) ∘
        activateRow now version model_key) =
        fun r => decide (¬ r.model_key = model_key) := by
      funext r
      simp [Function.comp, activateRow_model_key]
    rw [hp]
    have hid : ∀ r ∈ models.filter (fun r => decide (¬ r.model_key = model_key)),
        activateRow now version model_key r = id r := by
      intro r hr
      have hm := List.mem_filter.1 hr
      have hk : r.model_key ≠ model_key := by simpa using hm.2
      have hvr : r.version ≠ version := by
        intro hc
        exact hk (by rw [hmemv r hm.1 hc]; exact hkey)
      exact activateRow_of_other now version model_key r hk hvr
    rw [List.map_congr_left hid, List.map_id]
  · intro k
    by_cases hkK : k = model_key
    · rw [hkK, hcount1]
    · rw [activateModel_eq_map, countActive, List.countP_map]
      have hcongr2 : ∀ r ∈ models,
          (((fun r => decide (r.model_key = k ∧ r.status = "active")) ∘
            activateRow now version model_key) r = true ↔
          (fun r => decide (r.model_key = k ∧ r.status = "active")) r = true) := by
        intro r hr
        simp only [Function.comp_apply, decide_eq_true_eq]
        by_cases hrk : r.model_key = k
        · have hvr : r.version ≠ version := by
            intro hc
            exact hkK (by rw [← hkey, ← hmemv r hr hc, hrk])
          rw [activateRow_of_other now version model_key r (by rw [hrk]; exact hkK) hvr]
        · constructor
          · rintro ⟨h1, -⟩
            rw [activateRow_model_key] at h1
            exact absurd h1 hrk
          · rintro ⟨h1, -⟩
            exact absurd h1 hrk
      rw [List.countP_congr hcongr2]
      exact hinv k hkK

theorem activate_model_unique_version_witness :
    countActive (activateModel 7
        [⟨1, "v", "a", "draft", none⟩, ⟨2, "w", "a", "active", none⟩] "v" "a")
        "a" = 1 ∧
      (∀ r ∈ activateModel 7
          [⟨1, "v", "a", "draft", none⟩, ⟨2, "w", "a", "active", none⟩] "v" "a",
        r.model_key = "a" →
        r.status = (if r.version = "v" then "active" else "archived")) ∧
      (activateModel 7
          [⟨1, "v", "a", "draft", none⟩, ⟨2, "w", "a", "active", none⟩] "v" "a").filter
          (fun r => decide (¬ r.model_key = "a")) =
        [(⟨1, "v", "a", "draft", none⟩ : ModelRow),
         ⟨2, "w", "a", "active", none⟩].filter (fun r => decide (¬ r.model_key = "a")) ∧
      ∀ k, countActive (activateModel 7
          [⟨1, "v", "a", "draft", none⟩, ⟨2, "w", "a", "active", none⟩] "v" "a") k ≤ 1 :=
  activate_model_unique_version 7
    [⟨1, "v", "a", "draft", none⟩, ⟨2, "w", "a", "active", none⟩] "v" "a"
    ⟨1, "v", "a", "draft", none⟩ (by decide) rfl
    (by
      intro k hk
      simp [countActive, List.countP_cons, List.countP_nil, Ne.symm hk])


/-- A row of the `datasets` table. -/
structure DatasetRow where
  dataset_id : ℕ
  name : String
  source : String
  description : String
  model_key : String
  task_type : String
  status : String
  row_count : Option ℕ
  latest_version_label : Option String
deriving DecidableEq, Repr

/-- A row of the `dataset_versions` table. -/
structure VersionRow where
  version_id : ℕ
  dataset_id : ℕ
  version_label : String
  task_type : String
  row_count : ℕ
  dataset_hash : String
  created_at : ℕ
deriving DecidableEq, Repr

/-- A row of the `dataset_items` table (the columns `persist_dataset`
inserts; `source_payload` is recoverable from the other fields and
omitted). -/
structure ItemRow where
  dataset_id : ℕ
  version_id : ℕ
  name : String
  full_name : Option String
  kind : Option String
  unit : Option String
  type_hint : Option String
  okved_code : Option String
  hs_code : Option String
  label : Option String
deriving DecidableEq, Repr

/-- One insert row: note `(row.get("label") or None)` maps the empty string
to NULL. -/
def itemRowOf (dataset_id version_id : ℕ) (it : Item) : ItemRow :=
  ⟨dataset_id, version_id, it.name, it.full_name, it.kind, it.unit, it.type_hint,
   it.okved_code, it.hs_code, if it.label = some "" then none else it.label⟩

/-- The sqlite file of `MlRepository`, restricted to the tables
`persist_dataset` touches, with explicit autoincrement counters. -/
structure RepoState where
  datasets : List DatasetRow
  dataset_versions : List VersionRow
  dataset_items : List ItemRow
  nextDatasetId : ℕ
  nextVersionId : ℕ
deriving DecidableEq, Repr

inductive RepoError where
  /-- `ValueError`: refuse an empty dataset. -/
  | emptyDataset
  /-- the distinct `DatasetVersionExists` condition. -/
  | versionExists
deriving DecidableEq, Repr

/-- `dataset_name.strip() or model_key` from `persist_dataset`. -/
def normalizedName (dataset_name model_key : String) : String :=
  if pyStrip dataset_name = "" then model_key else pyStrip dataset_name

/-- `MlRepository._get_or_create_dataset`. -/
def getOrCreateDataset (st : RepoState) (name model_key task_type source : String) :
    RepoState × ℕ :=
  match st.datasets.find? (fun d => decide (d.name = name ∧ d.model_key = model_key)) with
  | some d => (st, d.dataset_id)
  | none =>
      let did := st.nextDatasetId
      ({ st with
          datasets := st.datasets ++
            [⟨did, name, source, "Автосбор для модели " ++ model_key, model_key,
              task_type, "pending", none, none⟩],
          nextDatasetId := did + 1 }, did)

/-- `MlRepository._create_dataset_version`: raise the distinct error when the
`(dataset, version_label)` pair exists without `rewrite`; with `rewrite`
delete the version's item rows and update the version row in place; else
insert a fresh version row. -/
def createDatasetVersion (now : ℕ) (st : RepoState) (dataset_id : ℕ)
    (version_label task_type : String) (rewrite : Bool) (checksum : String)
    (row_count : ℕ) : Except RepoError (RepoState × ℕ) :=
  match st.dataset_versions.find?
      (fun v => decide (v.dataset_id = dataset_id ∧ v.version_label = version_label)) with
  | some existing =>
      if rewrite then
        let vid := existing.version_id
        .ok ({ st with
            dataset_items :=
              st.dataset_items.filter (fun it => decide (¬ it.version_id = vid)),
            dataset_versions := st.dataset_versions.map (fun v =>
              if v.version_id = vid then
                { v with
                  created_at := now
                  row_count := row_count
                  dataset_hash := checksum
                  task_type := task_type }
              else v) }, vid)
      else .error .versionExists
  | none =>
      let vid := st.nextVersionId
      .ok ({ st with
          dataset_versions := st.dataset_versions ++
            [⟨vid, dataset_id, version_label, task_type, row_count, checksum, now⟩],
          nextVersionId := vid + 1 }, vid)

/-- `repository.DatasetRecord`. -/
structure DatasetRecord where
  dataset_id : ℕ
  version_id : ℕ
  version_label : String
  row_count : ℕ
deriving DecidableEq, Repr

/-- `MlRepository.persist_dataset`.  `hashFn` models the SHA-256 over the
canonical JSON payload.  On an exception the connection closes without the
final `conn.commit()`, so every statement rolls back: error results carry
the caller's state unchanged. -/
def persistDataset (hashFn : List Item → String) (now : ℕ) (st : RepoState)
    (model_key task_type version_label dataset_name : String)
    (items : List Item) (source : String) (rewrite : Bool) :
    RepoState × Except RepoError DatasetRecord :=
  if items.isEmpty then (st, .error .emptyDataset)
  else
    let name := normalizedName dataset_name model_key
    let row_count := items.length
    let checksum := hashFn items
    let r1 := getOrCreateDataset st name model_key task_type source
    let st1 := r1.1
    let dataset_id := r1.2
    match createDatasetVersion now st1 dataset_id version_label task_type rewrite
        checksum row_count with
    | .error e => (st, .error e)
    | .ok (st2, version_id) =>
        let newRows := items.map (itemRowOf dataset_id version_id)
        let st3 := { st2 with dataset_items := st2.dataset_items ++ newRows }
        let st4 := { st3 with datasets := st3.datasets.map (fun d =>
            if d.dataset_id = dataset_id then
              { d with
                row_count := some (if rewrite then row_count
                  else d.row_count.getD 0 + row_count),
                status := "ready",
                latest_version_label := some version_label }
            else d) }
        (st4, .ok ⟨dataset_id, version_id, version_label, row_count⟩)

/-- C4.  With the `(dataset, version_label)` pair already present: without
`rewrite`, `persist_dataset` raises the distinct version-exists error and,
because nothing was committed, the state is unchanged; with `rewrite = true`
it reuses the same `dataset_id` and `version_id` (no id is allocated or
dropped), and the version's stored item rows, `row_count` and content hash
now reflect the new items. -/
theorem persist_dataset_version_conflict (hashFn : List Item → String) (now : ℕ)
    (st : RepoState) (model_key task_type version_label dataset_name source : String)
    (items : List Item) (drow : DatasetRow) (vrow : VersionRow)
    (hne : items ≠ [])
    (hfound : st.datasets.find?
        (fun d => decide (d.name = normalizedName dataset_name model_key ∧
          d.model_key = model_key)) = some drow)
    (hver : st.dataset_versions.find?
        (fun v => decide (v.dataset_id = drow.dataset_id ∧
          v.version_label = version_label)) = some vrow) :
    persistDataset hashFn now st model_key task_type version_label dataset_name
        items source false = (st, .error .versionExists) ∧
    ∃ st2, persistDataset hashFn now st model_key task_type version_label dataset_name
          items source true =
        (st2, .ok ⟨drow.dataset_id, vrow.version_id, version_label, items.length⟩) ∧
      st2.dataset_versions.map VersionRow.version_id =
        st.dataset_versions.map VersionRow.version_id ∧
      st2.datasets.map DatasetRow.dataset_id =
        st.datasets.map DatasetRow.dataset_id ∧
      (∀ v ∈ st2.dataset_versions, v.version_id = vrow.version_id →
        v.row_count = items.length ∧ v.dataset_hash = hashFn items) ∧
      st2.dataset_items.filter (fun it => decide (it.version_id = vrow.version_id)) =
        items.map (itemRowOf drow.dataset_id vrow.version_id) := by
  have hie : items.isEmpty = false := by
    cases items with
    | nil => exact absurd rfl hne
    | cons a t => rfl
  have hg : getOrCreateDataset st (normalizedName dataset_name model_key)
      model_key task_type source = (st, drow.dataset_id) := by
    unfold getOrCreateDataset
    rw [hfound]
  have hcf : createDatasetVersion now st drow.dataset_id version_label task_type
      false (hashFn items) items.length = .error .versionExists := by
    unfold createDatasetVersion
    rw [hver]
    rfl
  have hct : createDatasetVersion now st drow.dataset_id version_label task_type
      true (hashFn items) items.length =
      .ok ({ st with
          dataset_items := st.dataset_items.filter
            (fun it => decide (¬ it.version_id = vrow.version_id)),
          dataset_versions := st.dataset_versions.map (fun v =>
            if v.version_id = vrow.version_id then
              { v with
                created_at := now
                row_count := items.length
                dataset_hash := hashFn items
                task_type := task_type }
            else v) }, vrow.version_id) := by
    unfold createDatasetVersion
    rw [hver]
    rfl
  constructor
  · simp only [persistDataset, hie, Bool.false_eq_true, if_false]
    rw [hg]
    dsimp only
    rw [hcf]
  · refine ⟨{ st with
        datasets := st.datasets.map (fun d =>
          if d.dataset_id = drow.dataset_id then
            { d with
              row_count := some items.length
              status := "ready"
              latest_version_label := some version_label }
          else d)
        dataset_versions := st.dataset_versions.map (fun v =>
          if v.version_id = vrow.version_id then
            { v with
              created_at := now
              row_count := items.length
              dataset_hash := hashFn items
              task_type := task_type }
          else v)
        dataset_items :=
          (st.dataset_items.filter
            (fun it => decide (¬ it.version_id = vrow.version_id))) ++
          items.map (itemRowOf drow.dataset_id vrow.version_id) },
      ?_, ?_, ?_, ?_, ?_⟩
    · simp only [persistDataset, hie, Bool.false_eq_true, if_false]
      rw [hg]
      dsimp only
      rw [hct]
      rfl
    · dsimp only
      rw [List.map_map]
      apply List.map_congr_left
      intro v _
      by_cases h : v.version_id = vrow.version_id <;> simp [h]
    · dsimp only
      rw [List.map_map]
      apply List.map_congr_left
      intro d _
      by_cases h : d.dataset_id = drow.dataset_id <;> simp [h]
    · dsimp only
      intro v hv hvid
      obtain ⟨v0, hv0, rfl⟩ := List.mem_map.1 hv
      by_cases h : v0.version_id = vrow.version_id
      · rw [if_pos h]
        exact ⟨rfl, rfl⟩
      · rw [if_neg h] at hvid ⊢
        exact absurd hvid h
    · dsimp only
      rw [List.filter_append, List.filter_filter]
      have h1 : (st.dataset_items.filter
          (fun a => decide (a.version_id = vrow.version_id) &&
            decide (¬ a.version_id = vrow.version_id))) = [] := by
        apply List.filter_eq_nil_iff.2
        intro a _
        by_cases h : a.version_id = vrow.version_id <;> simp [h]
      have h2 : ((items.map (itemRowOf drow.dataset_id vrow.version_id)).filter
          (fun it => decide (it.version_id = vrow.version_id))) =
          items.map (itemRowOf drow.dataset_id vrow.version_id) := by
        apply List.filter_eq_self.2
        intro a ha
        obtain ⟨it, -, rfl⟩ := List.mem_map.1 ha
        simp [itemRowOf]
      rw [h1, h2, List.nil_append]

def itemW : Item :=
  ⟨"x", none, none, none, none, none, none, none, none, none, none, none⟩

def repoStateW : RepoState :=
  ⟨[⟨1, "ds", "api", "", "mk", "classification", "ready", some 1, some "v1"⟩],
   [⟨5, 1, "v1", "classification", 1, "h0", 0⟩], [], 2, 2⟩

theorem persist_dataset_version_conflict_witness :
    persistDataset (fun _ => "H") 9 repoStateW "mk" "classification" "v1" "ds"
        [itemW] "api" false = (repoStateW, .error .versionExists) ∧
    ∃ st2, persistDataset (fun _ => "H") 9 repoStateW "mk" "classification" "v1" "ds"
          [itemW] "api" true = (st2, .ok ⟨1, 5, "v1", 1⟩) ∧
      st2.dataset_versions.map VersionRow.version_id =
        repoStateW.dataset_versions.map VersionRow.version_id ∧
      st2.datasets.map DatasetRow.dataset_id =
        repoStateW.datasets.map DatasetRow.dataset_id ∧
      (∀ v ∈ st2.dataset_versions, v.version_id = 5 →
        v.row_count = 1 ∧ v.dataset_hash = "H") ∧
      st2.dataset_items.filter (fun it => decide (it.version_id = 5)) =
        [itemW].map (itemRowOf 1 5) :=
  persist_dataset_version_conflict (fun _ => "H") 9 repoStateW "mk" "classification"
    "v1" "ds" "api" [itemW]
    ⟨1, "ds", "api", "", "mk", "classification", "ready", some 1, some "v1"⟩
    ⟨5, 1, "v1", "classification", 1, "h0", 0⟩
    (List.cons_ne_nil _ _) (by decide) (by decide)
